import Mathlib

/-!
Verification of the data normalization / join / aggregation pipeline of the
GameTracker dashboard (`src/app.py`).

The pandas `DataFrame` objects are shallowly embedded as a list of column
labels plus a list of rows, each row a positional list of cells.  A cell is a
string, a number (exact rational; the source's float arithmetic is modelled by
exact rational arithmetic), a parsed timestamp, a year-month period, or the
undefined marker `na` (pandas `NaN`/`NaT`).

Executable rational arithmetic is routed through `mkRat`, and string
operations through character lists, so that every definition evaluates inside
the kernel on concrete inputs.
-/

/-- A single table cell: string, number, timestamp, month period, or
undefined (`NaN`/`NaT`). -/
inductive Cell where
  | str (s : String)
  | num (q : ℚ)
  | dt (y m d hh mm ss : Nat)
  | period (y m : Nat)
  | na
deriving DecidableEq, Repr

/-- A pandas DataFrame: ordered column labels and positional rows. -/
structure DataFrame where
  cols : List String
  rows : List (List Cell)
deriving DecidableEq, Repr

/-! ### Executable rational helpers (kernel-reducible, unlike `Rat.add` etc.) -/

/-- `a + b` on `ℚ`, computed through `mkRat` so the kernel can evaluate it. -/
def qAdd (a b : ℚ) : ℚ := mkRat (a.num * (b.den : ℤ) + b.num * (a.den : ℤ)) (a.den * b.den)

/-- Sum of a list of rationals via `qAdd`. -/
def qSum (l : List ℚ) : ℚ := l.foldr qAdd 0

/-- `a / n` for a natural `n`, computed through `mkRat`. -/
def qDivNat (a : ℚ) (n : Nat) : ℚ := mkRat a.num (a.den * n)

/-- Nearest integer to `n / d` (for `d > 0`), ties going to the even integer;
this is numpy's rounding mode, used by pandas `Series.round`. -/
def roundHalfEvenInt (n : ℤ) (d : ℕ) : ℤ :=
  let f := Int.fdiv n d
  let r := n - f * d
  if 2 * r < (d : ℤ) then f
  else if (d : ℤ) < 2 * r then f + 1
  else if f % 2 = 0 then f else f + 1

/-- Round a rational to 2 decimal places, ties to even (pandas `.round(2)`). -/
def round2 (q : ℚ) : ℚ := mkRat (roundHalfEvenInt (q.num * 100) q.den) 100

/-! ### Character-level string helpers (Python `str.strip`, `str.lower`,
`str.startswith`), kernel-reducible unlike `String.trim` etc. -/

/-- Python `s.strip()`: drop surrounding whitespace. -/
def stripStr (s : String) : String :=
  ⟨(((s.data.dropWhile Char.isWhitespace).reverse).dropWhile Char.isWhitespace).reverse⟩

/-- Python `s.lower()`. -/
def lowerStr (s : String) : String := ⟨s.data.map Char.toLower⟩

/-- List-level `startswith`. -/
def startsWithChars : List Char → List Char → Bool
  | _, [] => true
  | [], _ :: _ => false
  | a :: as, b :: bs => a == b && startsWithChars as bs

/-- Python `s.startswith(p)`. -/
def startsWithStr (s p : String) : Bool := startsWithChars s.data p.data

/-! ### Calendar arithmetic (for `pd.to_datetime` timestamps)

Timestamps are represented by their civil fields; `rawDays` counts days in
Howard Hinnant's era scheme (day 0 = 0000-03-01), from which durations and
weekday names are derived. -/

def isLeap (y : Nat) : Bool := y % 4 == 0 && (y % 100 != 0 || y % 400 == 0)

def daysInMonth (y m : Nat) : Nat :=
  if m = 2 then (if isLeap y then 29 else 28)
  else if m = 4 ∨ m = 6 ∨ m = 9 ∨ m = 11 then 30 else 31

/-- Days since 0000-03-01 of the civil date `y-m-d` (valid for `y ≥ 1`). -/
def rawDays (y m d : Nat) : Nat :=
  let yy := if m ≤ 2 then y - 1 else y
  let era := yy / 400
  let yoe := yy % 400
  let mp := (m + 9) % 12
  let doy := (153 * mp + 2) / 5 + (d - 1)
  let doe := yoe * 365 + yoe / 4 - yoe / 100 + doy
  era * 146097 + doe

/-- Seconds (in the `rawDays` epoch) of a timestamp cell's fields. -/
def rawSecs (y m d hh mm ss : Nat) : Nat :=
  rawDays y m d * 86400 + hh * 3600 + mm * 60 + ss

/-- English day names, aligned so that `rawDays y m d % 7` indexes the
weekday of `y-m-d` (1970-01-01, a Thursday, has `rawDays` 719468 ≡ 1). -/
def dayNames : List String :=
  ["Wednesday", "Thursday", "Friday", "Saturday", "Sunday", "Monday", "Tuesday"]

/-- `Series.dt.day_name()` for one timestamp. -/
def dayNameOf (y m d : Nat) : String := dayNames.getD (rawDays y m d % 7) ""

/-! ### Timestamp parsing (`pd.to_datetime(..., errors="coerce")`)

Modelled for the inputs this pipeline receives: ISO-8601 date or date-time
strings (`YYYY-MM-DD`, optionally `T`- or space-separated `HH:MM:SS`), cells
that are already timestamps, and missing cells.  Anything else coerces to the
undefined marker, exactly as `errors="coerce"` degrades unparseable input.
Years are restricted to pandas' representable `Timestamp` range. -/

def digitVal (c : Char) : Option Nat :=
  if c.isDigit then some (c.toNat - 48) else none

def num2 (a b : Char) : Option Nat := do
  let x ← digitVal a
  let y ← digitVal b
  pure (x * 10 + y)

def num4 (a b c d : Char) : Option Nat := do
  let x ← num2 a b
  let y ← num2 c d
  pure (x * 100 + y)

/-- Validate parsed civil fields and build a timestamp cell. -/
def mkDtCell (y mo da hh mi se : Nat) : Option Cell :=
  if 1678 ≤ y ∧ y ≤ 2261 ∧ 1 ≤ mo ∧ mo ≤ 12 ∧ 1 ≤ da ∧ da ≤ daysInMonth y mo
      ∧ hh ≤ 23 ∧ mi ≤ 59 ∧ se ≤ 59
  then some (Cell.dt y mo da hh mi se) else none

def parseTimestamp (s : String) : Option Cell :=
  match s.data with
  | [y1, y2, y3, y4, '-', m1, m2, '-', d1, d2] => do
      let y ← num4 y1 y2 y3 y4
      let mo ← num2 m1 m2
      let da ← num2 d1 d2
      mkDtCell y mo da 0 0 0
  | [y1, y2, y3, y4, '-', m1, m2, '-', d1, d2, sep, h1, h2, ':', n1, n2, ':', s1, s2] => do
      if sep = 'T' ∨ sep = ' ' then
        let y ← num4 y1 y2 y3 y4
        let mo ← num2 m1 m2
        let da ← num2 d1 d2
        let hh ← num2 h1 h2
        let mi ← num2 n1 n2
        let se ← num2 s1 s2
        mkDtCell y mo da hh mi se
      else none
  | _ => none

/-- `pd.to_datetime(cell, errors="coerce")` on one cell. -/
def toDatetimeCell : Cell → Cell
  | Cell.str s => (parseTimestamp s).getD Cell.na
  | Cell.dt y m d hh mm ss => Cell.dt y m d hh mm ss
  | _ => Cell.na

/-! ### Positional frame primitives -/

/-- Index of the first column with the given label. -/
def colIdx : List String → String → Option Nat
  | [], _ => none
  | c :: cs, n => if c = n then some 0 else (colIdx cs n).map (· + 1)

/-- The cell of `row` under column `name` (undefined when the label or the
cell is absent). -/
def cellAt (cols : List String) (name : String) (row : List Cell) : Cell :=
  match colIdx cols name with
  | some i => row.getD i Cell.na
  | none => Cell.na

/-- The column `name` as a list of cells (pandas `df[name]`). -/
def colCells (df : DataFrame) (name : String) : List Cell :=
  df.rows.map (cellAt df.cols name)

/-- `df[name] = vals`: overwrite the column if the label exists, else append
it on the right (pandas column assignment). -/
def setCol (df : DataFrame) (name : String) (vals : List Cell) : DataFrame :=
  match colIdx df.cols name with
  | some i => ⟨df.cols, List.zipWith (fun r v => r.set i v) df.rows vals⟩
  | none => ⟨df.cols ++ [name], List.zipWith (fun r v => r ++ [v]) df.rows vals⟩

/-- Well-formedness: every row has exactly one cell per column. -/
def DataFrame.WF (df : DataFrame) : Prop :=
  ∀ r ∈ df.rows, r.length = df.cols.length

instance (df : DataFrame) : Decidable df.WF :=
  inferInstanceAs (Decidable (∀ r ∈ df.rows, r.length = df.cols.length))

/-! ### Derived-cell functions (`src/app.py`, `normalize_log_df`) -/

/-- One entry of `(df["Full End"] - df["Full Start"]).dt.total_seconds() / 3600`,
rounded to 2 decimals; `NaT` on either side degrades to `NaN`. -/
def durCell : Cell → Cell → Cell
  | Cell.dt ye me de he ne se, Cell.dt ys ms ds hs ns ss =>
      Cell.num (round2 (mkRat ((rawSecs ye me de he ne se : ℤ) - (rawSecs ys ms ds hs ns ss : ℤ)) 3600))
  | _, _ => Cell.na

/-- One entry of `pd.to_datetime(col).dt.to_period("M")`. -/
def monthCell : Cell → Cell
  | Cell.dt y m _ _ _ _ => Cell.period y m
  | _ => Cell.na

/-- One entry of `pd.to_datetime(col).dt.day_name()`. -/
def weekdayCell : Cell → Cell
  | Cell.dt y m d _ _ _ => Cell.str (dayNameOf y m d)
  | _ => Cell.na

/-- `df.columns = df.columns.str.strip()` (src/app.py line 75). -/
def stripDf (df : DataFrame) : DataFrame := ⟨df.cols.map stripStr, df.rows⟩

/-- `normalize_log_df` (src/app.py lines 74-83): strip column labels, parse
the two timestamp columns in place, then assign the derived `duration_hours`,
`month` and `weekday` columns. -/
def normalize_log_df (df : DataFrame) : DataFrame :=
  let d0 := stripDf df
  let d1 := setCol d0 "Full Start" ((colCells d0 "Full Start").map toDatetimeCell)
  let d2 := setCol d1 "Full End" ((colCells d1 "Full End").map toDatetimeCell)
  let d3 := setCol d2 "duration_hours"
      (List.zipWith durCell (colCells d2 "Full End") (colCells d2 "Full Start"))
  let d4 := setCol d3 "month" ((colCells d3 "Full Start").map monthCell)
  let d5 := setCol d4 "weekday" ((colCells d4 "Full Start").map weekdayCell)
  d5

/-- The Python function body assigns into the caller's `df` object
(`df.columns = ...`, `df[...] = ...`) and then returns that same object: the
pair is (state of the argument object after the call, returned value). -/
def normalize_log_df_call (df : DataFrame) : DataFrame × DataFrame :=
  (normalize_log_df df, normalize_log_df df)

/-- `normalize_register_df` (src/app.py lines 85-87). -/
def normalize_register_df (df : DataFrame) : DataFrame :=
  ⟨df.cols.map stripStr, df.rows⟩

/-! ### `merge_data` (src/app.py lines 89-93) -/

/-- The register rows matching one log row under the chosen join keys
(`pd.merge` key equality; like pandas, the undefined marker matches itself). -/
def mergeMatches (l r : DataFrame) (lk rk : String) (lrow : List Cell) : List (List Cell) :=
  r.rows.filter (fun rr => cellAt r.cols rk rr = cellAt l.cols lk lrow)

/-- The cells a matched right row contributes: all of them, except that the
`on=` form (`dropRK`) does not repeat the single shared key column. -/
def mergeRKeep (r : DataFrame) (rk : String) (dropRK : Bool) (rr : List Cell) : List Cell :=
  match colIdx r.cols rk with
  | some i => if dropRK then rr.eraseIdx i else rr
  | none => rr

/-- The right-hand column labels that survive the merge (before suffixing). -/
def mergeRCols (r : DataFrame) (rk : String) (dropRK : Bool) : List String :=
  match colIdx r.cols rk with
  | some i => if dropRK then r.cols.eraseIdx i else r.cols
  | none => r.cols

/-- Overlapping labels (other than the `on=` key) get pandas' `_x`/`_y`
suffixes. -/
def mergeSuffixed (l r : DataFrame) (lk : String) (dropRK : Bool) (suf c : String) : String :=
  if decide (c ∈ l.cols) && decide (c ∈ r.cols) && (!dropRK || decide (¬ c = lk))
  then c ++ suf else c

/-- Left-outer `pd.merge`.  Every left row is emitted: once per matching
right row, or once with undefined right cells when nothing matches. -/
def mergeCore (l r : DataFrame) (lk rk : String) (dropRK : Bool) : DataFrame :=
  ⟨l.cols.map (mergeSuffixed l r lk dropRK "_x")
      ++ (mergeRCols r rk dropRK).map (mergeSuffixed l r lk dropRK "_y"),
    l.rows.flatMap (fun lr =>
      let ms := mergeMatches l r lk rk lr
      if ms.isEmpty then [lr ++ List.replicate (mergeRCols r rk dropRK).length Cell.na]
      else ms.map (fun rr => lr ++ mergeRKeep r rk dropRK rr))⟩

/-- `merge_data` (src/app.py lines 89-93): join on `UID` when both tables
have it, else log `GAME` against register `Game`; always a left join. -/
def merge_data (log_df reg_df : DataFrame) : DataFrame :=
  if "UID" ∈ log_df.cols ∧ "UID" ∈ reg_df.cols then
    mergeCore log_df reg_df "UID" "UID" true
  else
    mergeCore log_df reg_df "GAME" "Game" false

/-- The join keys `merge_data` selects, by column availability. -/
def joinKeys (log_df reg_df : DataFrame) : String × String :=
  if "UID" ∈ log_df.cols ∧ "UID" ∈ reg_df.cols then ("UID", "UID") else ("GAME", "Game")

/-! ### Aggregates (src/app.py lines 97-122 and 167-174) -/

/-- Numeric view of a cell; the undefined marker is skipped by pandas
`sum`/`mean`. -/
def numVal : Cell → Option ℚ
  | Cell.num q => some q
  | _ => none

/-- `df["duration_hours"].sum()` (skips undefined entries; 0 on empty). -/
def total_hours (df : DataFrame) : ℚ :=
  qSum ((colCells df "duration_hours").filterMap numVal)

/-- `len(df)`. -/
def total_sessions (df : DataFrame) : Nat := df.rows.length

/-- `df["duration_hours"].mean()`: undefined (`none`) when no entry is
defined, as pandas returns `NaN`. -/
def meanDuration (df : DataFrame) : Option ℚ :=
  let vals := (colCells df "duration_hours").filterMap numVal
  if vals.length = 0 then none else some (qDivNat (qSum vals) vals.length)

/-- `avg_session` of `show_summary_metrics` (src/app.py line 101): the mean
guarded by `if total_sessions > 0 else 0`. -/
def avg_session (df : DataFrame) : Option ℚ :=
  if 0 < total_sessions df then meanDuration df else some 0

/-- The fixed milestone table of `playtime_achievements`
(src/app.py lines 111-116). -/
def milestones : List (ℚ × String) :=
  [(100, "🎯 Casual Grinder"), (250, "🔥 Hardcore Enthusiast"),
   (500, "⚔️ Legendary Gamer"), (1000, "👑 God-Tier Completionist")]

/-- The badge titles `playtime_achievements` renders (src/app.py lines
117-120): the list comprehension keeps, in table order, every milestone whose
threshold the total meets (the HTML chrome around each title is presentation
and is not modelled). -/
def playtime_badges (df : DataFrame) : List String :=
  (milestones.filter (fun p => decide (p.1 ≤ total_hours df))).map Prod.snd

/-! ### Grouping and sorting (src/app.py lines 167-174) -/

/-- Insert into a sorted list, before the first element `a` may precede:
a stable insertion step. -/
def insertByLe {α : Type} (le : α → α → Bool) (a : α) : List α → List α
  | [] => [a]
  | b :: bs => if le a b then a :: b :: bs else b :: insertByLe le a bs

/-- Stable insertion sort; models pandas' key-sorted `groupby` output and
`sort_values` (whose tie order on the small inputs here is that of a stable
sort). -/
def sortByLe {α : Type} (le : α → α → Bool) : List α → List α
  | [] => []
  | a :: as => insertByLe le a (sortByLe le as)

/-- First-occurrence deduplication. -/
def dedupCells (l : List Cell) : List Cell :=
  l.foldl (fun acc c => if c ∈ acc then acc else acc ++ [c]) []

/-- Lexicographic comparison of character lists (Python string `<=`). -/
def strLeChars : List Char → List Char → Bool
  | [], _ => true
  | _ :: _, [] => false
  | a :: as, b :: bs => if a = b then strLeChars as bs else decide (a < b)

/-- Rank used to totalize the cell order across kinds. -/
def cellRank : Cell → Nat
  | Cell.na => 0
  | Cell.str _ => 1
  | Cell.num _ => 2
  | Cell.dt _ _ _ _ _ _ => 3
  | Cell.period _ _ => 4

/-- Total comparison on cells, ordering within each kind and by kind rank
across kinds (pandas sorts homogeneous key columns; the cross-kind clause
totalizes the model). -/
def cellLe (a b : Cell) : Bool :=
  match a, b with
  | Cell.str s, Cell.str t => strLeChars s.data t.data
  | Cell.num p, Cell.num q => decide (p ≤ q)
  | Cell.dt y m d hh mm ss, Cell.dt y2 m2 d2 hh2 mm2 ss2 =>
      decide (rawSecs y m d hh mm ss ≤ rawSecs y2 m2 d2 hh2 mm2 ss2)
  | Cell.period y m, Cell.period y2 m2 => decide (y * 12 + m ≤ y2 * 12 + m2)
  | x, y => decide (cellRank x ≤ cellRank y)

/-- The distinct non-undefined values of a column, sorted ascending: the group
keys of `df.groupby(col)` (`sort=True`, `dropna=True` defaults). -/
def groupKeys (df : DataFrame) (col : String) : List Cell :=
  sortByLe cellLe (dedupCells ((colCells df col).filter (fun c => !(c = Cell.na))))

/-- Sum of `valCol` over the rows whose `keyCol` cell equals `k`
(one group's `sum()`, skipping undefined values). -/
def groupSum (df : DataFrame) (keyCol valCol : String) (k : Cell) : ℚ :=
  qSum (((df.rows.filter (fun r => cellAt df.cols keyCol r = k)).map
      (cellAt df.cols valCol)).filterMap numVal)

/-- `df.groupby(keyCol)[valCol].sum()`: one `(key, sum)` pair per distinct
non-undefined key, in ascending key order. -/
def groupbySum (df : DataFrame) (keyCol valCol : String) : List (Cell × ℚ) :=
  (groupKeys df keyCol).map (fun k => (k, groupSum df keyCol valCol k))

/-- Descending-by-value comparison used by `sort_values(ascending=False)`. -/
def sumDescLe (a b : Cell × ℚ) : Bool := decide (b.2 ≤ a.2)

/-- `df.groupby("GAME")["duration_hours"].sum().sort_values(ascending=False).head(15)`
(src/app.py line 168). -/
def top_games (df : DataFrame) : List (Cell × ℚ) :=
  (sortByLe sumDescLe (groupbySum df "GAME" "duration_hours")).take 15

/-- `str(x)` of a `month` cell (`astype(str)`): periods print as `YYYY-MM`,
the undefined marker prints as `"NaT"`. -/
def monthStrCell : Cell → String
  | Cell.period y m => toString y ++ "-" ++ (if m < 10 then "0" ++ toString m else toString m)
  | Cell.na => "NaT"
  | Cell.str s => s
  | Cell.num q => toString q.num
  | Cell.dt _ _ _ _ _ _ => ""

/-- String comparison for sorted month groups. -/
def strLe (s t : String) : Bool := strLeChars s.data t.data

/-- `df.groupby(df["month"].astype(str))["duration_hours"].sum()`
(src/app.py line 174): groups keyed by the month's string form, ascending. -/
def month_rollup (df : DataFrame) : List (String × ℚ) :=
  let keys := sortByLe strLe (((colCells df "month").map monthStrCell).foldl
      (fun acc s => if s ∈ acc then acc else acc ++ [s]) [])
  keys.map (fun k =>
    (k, qSum (((df.rows.filter (fun r => monthStrCell (cellAt df.cols "month" r) = k)).map
        (cellAt df.cols "duration_hours")).filterMap numVal)))

/-- `genre_filter` (src/app.py lines 124-139), with the sidebar multiselect
abstracted as the caller-selected tag list: no genre-tag columns or an empty
selection return the table unchanged; otherwise keep the rows where some
genre-tag cell is one of the selected tags (`isin(...).any(axis=1)`). -/
def genre_filter (df_register : DataFrame) (selected_tags : List String) : DataFrame :=
  let genre_cols := df_register.cols.filter (fun c => startsWithStr (lowerStr c) "genretag")
  if genre_cols.isEmpty then df_register
  else if selected_tags.isEmpty then df_register
  else ⟨df_register.cols,
    df_register.rows.filter (fun r =>
      genre_cols.any (fun c => (selected_tags.map Cell.str).contains (cellAt df_register.cols c r)))⟩

/-! ### Concrete tables used by the spec's scenarios -/

/-- Scenario A's log row. -/
def scenarioA_log : DataFrame :=
  ⟨["GAME", "Full Start", "Full End"],
   [[Cell.str "Chrono Trigger", Cell.str "2024-01-01T20:00:00", Cell.str "2024-01-01T22:30:00"]]⟩

/-- Scenario C: both tables carry `UID`, while `GAME`/`Game` disagree. -/
def uidLog : DataFrame :=
  ⟨["UID", "GAME"], [[Cell.num 1, Cell.str "A"], [Cell.num 2, Cell.str "Q"]]⟩

/-- Scenario C's register table. -/
def uidReg : DataFrame :=
  ⟨["UID", "Game", "Genre"], [[Cell.num 1, Cell.str "B", Cell.str "RPG"]]⟩

/-- The merged output for Scenario C: paired by `UID` equality, with the
second (unmatched) session padded by undefined catalog cells. -/
def uidMerged : DataFrame :=
  ⟨["UID", "GAME", "Game", "Genre"],
   [[Cell.num 1, Cell.str "A", Cell.str "B", Cell.str "RPG"],
    [Cell.num 2, Cell.str "Q", Cell.na, Cell.na]]⟩

/-- Two games with equal summed hours whose first-seen order ("Zelda" before
"Axiom") differs from their alphabetical order. -/
def tieLog : DataFrame :=
  ⟨["GAME", "duration_hours"],
   [[Cell.str "Zelda", Cell.num 1], [Cell.str "Axiom", Cell.num 1]]⟩

/-- A merged table with one session whose game-title cell is undefined. -/
def naGameLog : DataFrame :=
  ⟨["GAME", "duration_hours"],
   [[Cell.na, Cell.num 2], [Cell.str "Mario", Cell.num 3]]⟩

/-- Scenario D's register table. -/
def scenarioD_register : DataFrame :=
  ⟨["Game", "genretag1", "genretag2"],
   [[Cell.str "FF7", Cell.str "RPG", Cell.str "Adventure"],
    [Cell.str "Doom", Cell.str "Shooter", Cell.na]]⟩

/-- A merged table totalling 100 hours. -/
def hours100Df : DataFrame := ⟨["duration_hours"], [[Cell.num 100]]⟩

/-- A merged table totalling 260 hours (Scenario B). -/
def hours260Df : DataFrame := ⟨["duration_hours"], [[Cell.num 260]]⟩

/-! ### List access helpers -/

theorem getD_map {α β : Type} (f : α → β) (l : List α) (i : Nat) (d : β) (d0 : α)
    (h : i < l.length) : (l.map f).getD i d = f (l.getD i d0) := by
  induction l generalizing i with
  | nil => simp at h
  | cons a t ih =>
    cases i with
    | zero => rfl
    | succ j => simpa using ih j (by simpa using h)

theorem getD_zipWith {α β γ : Type} (f : α → β → γ) (l1 : List α) (l2 : List β)
    (i : Nat) (d : γ) (d1 : α) (d2 : β) (h1 : i < l1.length) (h2 : i < l2.length) :
    (List.zipWith f l1 l2).getD i d = f (l1.getD i d1) (l2.getD i d2) := by
  induction l1 generalizing l2 i with
  | nil => simp at h1
  | cons a t ih =>
    cases l2 with
    | nil => simp at h2
    | cons b s =>
      cases i with
      | zero => rfl
      | succ j => simpa using ih s j (by simpa using h1) (by simpa using h2)

theorem getD_set_self {α : Type} (r : List α) (i : Nat) (v d : α) (h : i < r.length) :
    (r.set i v).getD i d = v := by
  induction r generalizing i with
  | nil => simp at h
  | cons a t ih =>
    cases i with
    | zero => rfl
    | succ j => simpa using ih j (by simpa using h)

theorem getD_set_ne {α : Type} (r : List α) (i j : Nat) (v d : α) (h : i ≠ j) :
    (r.set i v).getD j d = r.getD j d := by
  induction r generalizing i j with
  | nil => simp
  | cons a t ih =>
    cases i with
    | zero =>
      cases j with
      | zero => exact absurd rfl h
      | succ k => rfl
    | succ i2 =>
      cases j with
      | zero => rfl
      | succ k => simpa using ih i2 k (by omega)

theorem getD_append_lt {α : Type} (r s : List α) (j : Nat) (d : α) (h : j < r.length) :
    (r ++ s).getD j d = r.getD j d := by
  induction r generalizing j with
  | nil => simp at h
  | cons a t ih =>
    cases j with
    | zero => rfl
    | succ k => simpa using ih k (by simp at h; exact h)

theorem getD_append_len {α : Type} (r : List α) (v d : α) :
    (r ++ [v]).getD r.length d = v := by
  induction r with
  | nil => rfl
  | cons a t ih => simp only [List.cons_append, List.length_cons, List.getD_cons_succ]; exact ih

/-! ### `colIdx` lemmas -/

theorem colIdx_lt_length {cs : List String} {n : String} {i : Nat}
    (h : colIdx cs n = some i) : i < cs.length := by
  induction cs generalizing i with
  | nil => simp [colIdx] at h
  | cons c t ih =>
    by_cases hc : c = n
    · simp [colIdx, hc] at h
      simp [← h]
    · simp [colIdx, hc] at h
      obtain ⟨j, hj, rfl⟩ := h
      have := ih hj
      simp only [List.length_cons]
      omega

theorem colIdx_getD {cs : List String} {n : String} {i : Nat}
    (h : colIdx cs n = some i) : cs.getD i "" = n := by
  induction cs generalizing i with
  | nil => simp [colIdx] at h
  | cons c t ih =>
    by_cases hc : c = n
    · simp [colIdx, hc] at h
      subst h
      simpa using hc
    · simp [colIdx, hc] at h
      obtain ⟨j, hj, rfl⟩ := h
      simpa using ih hj

theorem colIdx_isSome_iff_mem {cs : List String} {n : String} :
    (colIdx cs n).isSome ↔ n ∈ cs := by
  induction cs with
  | nil => simp [colIdx]
  | cons c t ih =>
    by_cases hc : c = n
    · simp [colIdx, hc]
    · simp [colIdx, hc, Option.isSome_map, ih]
      exact fun h => absurd h.symm hc

theorem colIdx_eq_none_of_not_mem {cs : List String} {n : String} (h : n ∉ cs) :
    colIdx cs n = none := by
  cases hi : colIdx cs n with
  | none => rfl
  | some i =>
    exact absurd (colIdx_isSome_iff_mem.1 (by simp [hi])) h

theorem mem_of_colIdx_eq_some {cs : List String} {n : String} {i : Nat}
    (h : colIdx cs n = some i) : n ∈ cs :=
  colIdx_isSome_iff_mem.1 (by simp [h])

theorem colIdx_ne_of_name_ne {cs : List String} {n m : String} {i j : Nat}
    (hn : colIdx cs n = some i) (hm : colIdx cs m = some j) (h : n ≠ m) : i ≠ j := by
  intro hij
  subst hij
  exact h ((colIdx_getD hn).symm.trans (colIdx_getD hm))

theorem colIdx_append_of_eq_some {cs ds : List String} {n : String} {i : Nat}
    (h : colIdx cs n = some i) : colIdx (cs ++ ds) n = some i := by
  induction cs generalizing i with
  | nil => simp [colIdx] at h
  | cons c t ih =>
    by_cases hc : c = n
    · simp [colIdx, hc] at h ⊢
      exact h
    · simp [colIdx, hc] at h ⊢
      obtain ⟨j, hj, rfl⟩ := h
      exact ⟨j, ih hj, rfl⟩

theorem colIdx_append_singleton_self {cs : List String} {n : String} (h : n ∉ cs) :
    colIdx (cs ++ [n]) n = some cs.length := by
  induction cs with
  | nil => simp [colIdx]
  | cons c t ih =>
    have hc : c ≠ n := by
      intro hcn
      exact h (by simp [hcn])
    have ht : n ∉ t := fun hm => h (by simp [hm])
    simp [colIdx, hc, ih ht]

theorem colIdx_append_singleton_of_ne {cs : List String} {n m : String}
    (hnm : m ≠ n) (h : colIdx cs m = none) : colIdx (cs ++ [n]) m = none := by
  have hm : m ∉ cs := fun hmem => by
    have := colIdx_isSome_iff_mem.2 hmem
    simp [h] at this
  have : m ∉ cs ++ [n] := by
    simp [hm]
    exact hnm
  exact colIdx_eq_none_of_not_mem this

/-! ### `setCol` lemmas -/

theorem setCol_of_idx_some {df : DataFrame} {name : String} {i : Nat} (vals : List Cell)
    (h : colIdx df.cols name = some i) :
    setCol df name vals = ⟨df.cols, List.zipWith (fun r v => r.set i v) df.rows vals⟩ := by
  unfold setCol
  rw [h]

theorem setCol_of_idx_none {df : DataFrame} {name : String} (vals : List Cell)
    (h : colIdx df.cols name = none) :
    setCol df name vals = ⟨df.cols ++ [name], List.zipWith (fun r v => r ++ [v]) df.rows vals⟩ := by
  unfold setCol
  rw [h]

theorem mem_zipWith_rel {α β γ : Type} (f : α → β → γ) :
    ∀ (l1 : List α) (l2 : List β) (c : γ), c ∈ List.zipWith f l1 l2 →
      ∃ a ∈ l1, ∃ b ∈ l2, c = f a b := by
  intro l1
  induction l1 with
  | nil => intro l2 c h; simp at h
  | cons a t ih =>
    intro l2 c h
    cases l2 with
    | nil => simp at h
    | cons b s =>
      simp only [List.zipWith_cons_cons, List.mem_cons] at h
      rcases h with h | h
      · exact ⟨a, by simp, b, by simp, h⟩
      · obtain ⟨a2, ha2, b2, hb2, hc⟩ := ih s c h
        exact ⟨a2, by simp [ha2], b2, by simp [hb2], hc⟩

theorem map_getD_zipWith_set_self (rows : List (List Cell)) (vals : List Cell) (i : Nat)
    (hlt : ∀ r ∈ rows, i < r.length) (hlen : vals.length = rows.length) :
    (List.zipWith (fun r v => r.set i v) rows vals).map (fun r => r.getD i Cell.na) = vals := by
  induction rows generalizing vals with
  | nil => cases vals with
    | nil => rfl
    | cons b s => simp at hlen
  | cons a t ih =>
    cases vals with
    | nil => simp at hlen
    | cons b s =>
      simp only [List.zipWith_cons_cons, List.map_cons, List.cons.injEq]
      refine ⟨?_, ?_⟩
      · exact getD_set_self a i b Cell.na (hlt a (by simp))
      · exact ih s (fun r hr => hlt r (by simp [hr])) (by simpa using hlen)

theorem map_getD_zipWith_set_ne (rows : List (List Cell)) (vals : List Cell) (i j : Nat)
    (hne : i ≠ j) (hlen : vals.length = rows.length) :
    (List.zipWith (fun r v => r.set i v) rows vals).map (fun r => r.getD j Cell.na)
      = rows.map (fun r => r.getD j Cell.na) := by
  induction rows generalizing vals with
  | nil => cases vals <;> rfl
  | cons a t ih =>
    cases vals with
    | nil => simp at hlen
    | cons b s =>
      simp only [List.zipWith_cons_cons, List.map_cons, List.cons.injEq]
      refine ⟨?_, ?_⟩
      · exact getD_set_ne a i j b Cell.na hne
      · exact ih s (by simpa using hlen)

theorem map_getD_zipWith_append_self (rows : List (List Cell)) (vals : List Cell) (L : Nat)
    (hwf : ∀ r ∈ rows, r.length = L) (hlen : vals.length = rows.length) :
    (List.zipWith (fun r v => r ++ [v]) rows vals).map (fun r => r.getD L Cell.na) = vals := by
  induction rows generalizing vals with
  | nil => cases vals with
    | nil => rfl
    | cons b s => simp at hlen
  | cons a t ih =>
    cases vals with
    | nil => simp at hlen
    | cons b s =>
      simp only [List.zipWith_cons_cons, List.map_cons, List.cons.injEq]
      refine ⟨?_, ?_⟩
      · rw [← hwf a (by simp)]
        exact getD_append_len a b Cell.na
      · exact ih s (fun r hr => hwf r (by simp [hr])) (by simpa using hlen)

theorem map_getD_zipWith_append_lt (rows : List (List Cell)) (vals : List Cell) (j L : Nat)
    (hwf : ∀ r ∈ rows, r.length = L) (hj : j < L) (hlen : vals.length = rows.length) :
    (List.zipWith (fun r v => r ++ [v]) rows vals).map (fun r => r.getD j Cell.na)
      = rows.map (fun r => r.getD j Cell.na) := by
  induction rows generalizing vals with
  | nil => cases vals <;> rfl
  | cons a t ih =>
    cases vals with
    | nil => simp at hlen
    | cons b s =>
      simp only [List.zipWith_cons_cons, List.map_cons, List.cons.injEq]
      refine ⟨?_, ?_⟩
      · exact getD_append_lt a [b] j Cell.na (by rw [hwf a (by simp)]; exact hj)
      · exact ih s (fun r hr => hwf r (by simp [hr])) (by simpa using hlen)

theorem map_const_of_length_eq {α β : Type} (l1 : List α) (l2 : List β) (c : Cell)
    (h : l1.length = l2.length) : l1.map (fun _ => c) = l2.map (fun _ => c) := by
  induction l1 generalizing l2 with
  | nil => cases l2 with
    | nil => rfl
    | cons b s => simp at h
  | cons a t ih =>
    cases l2 with
    | nil => simp at h
    | cons b s =>
      simp only [List.map_cons, List.cons.injEq]
      exact ⟨by trivial, ih s (by simpa using h)⟩

theorem setCol_rows_length (df : DataFrame) (name : String) (vals : List Cell)
    (hlen : vals.length = df.rows.length) :
    (setCol df name vals).rows.length = df.rows.length := by
  cases hci : colIdx df.cols name with
  | some i => rw [setCol_of_idx_some vals hci]; simp [List.length_zipWith, hlen]
  | none => rw [setCol_of_idx_none vals hci]; simp [List.length_zipWith, hlen]

theorem setCol_WF (df : DataFrame) (name : String) (vals : List Cell)
    (hwf : df.WF) : (setCol df name vals).WF := by
  cases hci : colIdx df.cols name with
  | some i =>
    rw [setCol_of_idx_some vals hci]
    intro r hr
    obtain ⟨a, ha, b, hb, rfl⟩ := mem_zipWith_rel _ _ _ _ hr
    simp [List.length_set, hwf a ha]
  | none =>
    rw [setCol_of_idx_none vals hci]
    intro r hr
    obtain ⟨a, ha, b, hb, rfl⟩ := mem_zipWith_rel _ _ _ _ hr
    simp [hwf a ha]

theorem colCells_length (df : DataFrame) (name : String) :
    (colCells df name).length = df.rows.length := by
  simp [colCells]

theorem colCells_setCol_self (df : DataFrame) (name : String) (vals : List Cell)
    (hwf : df.WF) (hlen : vals.length = df.rows.length) :
    colCells (setCol df name vals) name = vals := by
  cases hci : colIdx df.cols name with
  | some i =>
    rw [setCol_of_idx_some vals hci]
    unfold colCells
    have hcell : cellAt df.cols name = fun r => r.getD i Cell.na :=
      funext (fun r => by simp [cellAt, hci])
    rw [hcell]
    exact map_getD_zipWith_set_self df.rows vals i
      (fun r hr => (hwf r hr) ▸ colIdx_lt_length hci) hlen
  | none =>
    rw [setCol_of_idx_none vals hci]
    unfold colCells
    have hnm : name ∉ df.cols := by
      intro hm
      have := colIdx_isSome_iff_mem.2 hm
      simp [hci] at this
    have hidx : colIdx (df.cols ++ [name]) name = some df.cols.length :=
      colIdx_append_singleton_self hnm
    have hcell : cellAt (df.cols ++ [name]) name = fun r => r.getD df.cols.length Cell.na :=
      funext (fun r => by simp [cellAt, hidx])
    rw [hcell]
    exact map_getD_zipWith_append_self df.rows vals df.cols.length hwf hlen

theorem colCells_setCol_other (df : DataFrame) (name other : String) (vals : List Cell)
    (hne : other ≠ name) (hwf : df.WF) (hlen : vals.length = df.rows.length) :
    colCells (setCol df name vals) other = colCells df other := by
  cases hci : colIdx df.cols name with
  | some i =>
    rw [setCol_of_idx_some vals hci]
    unfold colCells
    cases hcj : colIdx df.cols other with
    | some j =>
      have hij : i ≠ j := fun h => (colIdx_ne_of_name_ne hcj hci hne) h.symm
      have hcell : cellAt df.cols other = fun r => r.getD j Cell.na :=
        funext (fun r => by simp [cellAt, hcj])
      rw [hcell]
      exact map_getD_zipWith_set_ne df.rows vals i j hij hlen
    | none =>
      have hcell : cellAt df.cols other = fun _ => Cell.na :=
        funext (fun r => by simp [cellAt, hcj])
      rw [hcell]
      exact map_const_of_length_eq _ _ _ (by simp [List.length_zipWith, hlen])
  | none =>
    rw [setCol_of_idx_none vals hci]
    unfold colCells
    cases hcj : colIdx df.cols other with
    | some j =>
      have hidx : colIdx (df.cols ++ [name]) other = some j :=
        colIdx_append_of_eq_some hcj
      have hcell : cellAt (df.cols ++ [name]) other = fun r => r.getD j Cell.na :=
        funext (fun r => by simp [cellAt, hidx])
      have hcell2 : cellAt df.cols other = fun r => r.getD j Cell.na :=
        funext (fun r => by simp [cellAt, hcj])
      rw [hcell, hcell2]
      exact map_getD_zipWith_append_lt df.rows vals j df.cols.length hwf
        (colIdx_lt_length hcj) hlen
    | none =>
      have hidx : colIdx (df.cols ++ [name]) other = none :=
        colIdx_append_singleton_of_ne hne hcj
      have hcell : cellAt (df.cols ++ [name]) other = fun _ => Cell.na :=
        funext (fun r => by simp [cellAt, hidx])
      have hcell2 : cellAt df.cols other = fun _ => Cell.na :=
        funext (fun r => by simp [cellAt, hcj])
      rw [hcell, hcell2]
      exact map_const_of_length_eq _ _ _ (by simp [List.length_zipWith, hlen])

theorem mem_cols_setCol_self (df : DataFrame) (name : String) (vals : List Cell) :
    name ∈ (setCol df name vals).cols := by
  cases hci : colIdx df.cols name with
  | some i => rw [setCol_of_idx_some vals hci]; exact mem_of_colIdx_eq_some hci
  | none => rw [setCol_of_idx_none vals hci]; simp

theorem mem_cols_setCol_of_mem (df : DataFrame) (name other : String) (vals : List Cell)
    (h : other ∈ df.cols) : other ∈ (setCol df name vals).cols := by
  cases hci : colIdx df.cols name with
  | some i => rw [setCol_of_idx_some vals hci]; exact h
  | none => rw [setCol_of_idx_none vals hci]; simp [h]

/-! ### `normalize_log_df` column-level characterization -/

theorem cellAt_getD_colCells (df : DataFrame) (name : String) (i : Nat)
    (h : i < df.rows.length) :
    (colCells df name).getD i Cell.na = cellAt df.cols name (df.rows.getD i []) := by
  unfold colCells
  exact getD_map (cellAt df.cols name) df.rows i Cell.na [] h

theorem durCell_of_na {e s : Cell} (h : s = Cell.na ∨ e = Cell.na) :
    durCell e s = Cell.na := by
  rcases h with h | h
  · subst h; cases e <;> rfl
  · subst h; cases s <;> rfl

theorem normalize_log_df_colCells (df : DataFrame) (hwf : df.WF) :
    (normalize_log_df df).rows.length = df.rows.length
    ∧ colCells (normalize_log_df df) "duration_hours"
        = List.zipWith durCell
            ((colCells (stripDf df) "Full End").map toDatetimeCell)
            ((colCells (stripDf df) "Full Start").map toDatetimeCell)
    ∧ colCells (normalize_log_df df) "month"
        = ((colCells (stripDf df) "Full Start").map toDatetimeCell).map monthCell
    ∧ colCells (normalize_log_df df) "weekday"
        = ((colCells (stripDf df) "Full Start").map toDatetimeCell).map
            weekdayCell := by
  set d0 : DataFrame := stripDf df with hd0
  have hwf0 : d0.WF := by
    rw [hd0]
    intro r hr
    simpa [stripDf] using hwf r (by simpa [stripDf] using hr)
  set pS := (colCells d0 "Full Start").map toDatetimeCell with hpS
  set pE := (colCells d0 "Full End").map toDatetimeCell with hpE
  set d1 := setCol d0 "Full Start" pS with hd1
  have hlen1 : pS.length = d0.rows.length := by
    rw [hpS]; simp [colCells_length]
  have hwf1 : d1.WF := setCol_WF _ _ _ hwf0
  have hr1 : d1.rows.length = d0.rows.length := setCol_rows_length _ _ _ hlen1
  have h1S : colCells d1 "Full Start" = pS := colCells_setCol_self _ _ _ hwf0 hlen1
  have h1E : colCells d1 "Full End" = colCells d0 "Full End" :=
    colCells_setCol_other _ _ _ _ (by decide) hwf0 hlen1
  set vE := (colCells d1 "Full End").map toDatetimeCell with hvE
  have hvEpE : vE = pE := by rw [hvE, h1E, hpE]
  set d2 := setCol d1 "Full End" vE with hd2
  have hlen2 : vE.length = d1.rows.length := by
    rw [hvE]; simp [colCells_length]
  have hwf2 : d2.WF := setCol_WF _ _ _ hwf1
  have hr2 : d2.rows.length = d1.rows.length := setCol_rows_length _ _ _ hlen2
  have h2E : colCells d2 "Full End" = pE := by
    rw [hd2, colCells_setCol_self _ _ _ hwf1 hlen2]; exact hvEpE
  have h2S : colCells d2 "Full Start" = pS := by
    rw [hd2, colCells_setCol_other _ _ _ _ (by decide) hwf1 hlen2, h1S]
  set vD := List.zipWith durCell (colCells d2 "Full End") (colCells d2 "Full Start") with hvD
  have hvD2 : vD = List.zipWith durCell pE pS := by rw [hvD, h2E, h2S]
  set d3 := setCol d2 "duration_hours" vD with hd3
  have hlen3 : vD.length = d2.rows.length := by
    rw [hvD]; simp [List.length_zipWith, colCells_length]
  have hwf3 : d3.WF := setCol_WF _ _ _ hwf2
  have hr3 : d3.rows.length = d2.rows.length := setCol_rows_length _ _ _ hlen3
  have h3D : colCells d3 "duration_hours" = List.zipWith durCell pE pS := by
    rw [hd3, colCells_setCol_self _ _ _ hwf2 hlen3]; exact hvD2
  have h3S : colCells d3 "Full Start" = pS := by
    rw [hd3, colCells_setCol_other _ _ _ _ (by decide) hwf2 hlen3, h2S]
  set vM := (colCells d3 "Full Start").map monthCell with hvM
  have hvM3 : vM = pS.map monthCell := by rw [hvM, h3S]
  set d4 := setCol d3 "month" vM with hd4
  have hlen4 : vM.length = d3.rows.length := by
    rw [hvM]; simp [colCells_length]
  have hwf4 : d4.WF := setCol_WF _ _ _ hwf3
  have hr4 : d4.rows.length = d3.rows.length := setCol_rows_length _ _ _ hlen4
  have h4M : colCells d4 "month" = pS.map monthCell := by
    rw [hd4, colCells_setCol_self _ _ _ hwf3 hlen4]; exact hvM3
  have h4S : colCells d4 "Full Start" = pS := by
    rw [hd4, colCells_setCol_other _ _ _ _ (by decide) hwf3 hlen4, h3S]
  have h4D : colCells d4 "duration_hours" = List.zipWith durCell pE pS := by
    rw [hd4, colCells_setCol_other _ _ _ _ (by decide) hwf3 hlen4, h3D]
  set vW := (colCells d4 "Full Start").map weekdayCell with hvW
  have hvW4 : vW = pS.map weekdayCell := by rw [hvW, h4S]
  set d5 := setCol d4 "weekday" vW with hd5
  have hlen5 : vW.length = d4.rows.length := by
    rw [hvW]; simp [colCells_length]
  have hr5 : d5.rows.length = d4.rows.length := setCol_rows_length _ _ _ hlen5
  have h5W : colCells d5 "weekday" = pS.map weekdayCell := by
    rw [hd5, colCells_setCol_self _ _ _ hwf4 hlen5]; exact hvW4
  have h5M : colCells d5 "month" = pS.map monthCell := by
    rw [hd5, colCells_setCol_other _ _ _ _ (by decide) hwf4 hlen5, h4M]
  have h5D : colCells d5 "duration_hours" = List.zipWith durCell pE pS := by
    rw [hd5, colCells_setCol_other _ _ _ _ (by decide) hwf4 hlen5, h4D]
  have hnorm : normalize_log_df df = d5 := rfl
  refine ⟨?_, ?_, ?_, ?_⟩
  · rw [hnorm, hr5, hr4, hr3, hr2, hr1]; rfl
  · rw [hnorm, h5D]
  · rw [hnorm, h5M]
  · rw [hnorm, h5W]

/-! ### `merge_data` lemmas -/

theorem mergeCore_rows (l r : DataFrame) (lk rk : String) (dk : Bool) :
    (mergeCore l r lk rk dk).rows
      = l.rows.flatMap (fun lr =>
          let ms := mergeMatches l r lk rk lr
          if ms.isEmpty then [lr ++ List.replicate (mergeRCols r rk dk).length Cell.na]
          else ms.map (fun rr => lr ++ mergeRKeep r rk dk rr)) := rfl

theorem mergeCore_rows_length (l r : DataFrame) (lk rk : String) (dk : Bool) :
    (mergeCore l r lk rk dk).rows.length
      = (l.rows.map (fun lr => max 1 (mergeMatches l r lk rk lr).length)).sum := by
  rw [mergeCore_rows]
  simp only [List.length_flatMap]
  congr 1
  apply List.map_congr_left
  intro lr _
  simp only [Function.comp_apply]
  by_cases hms : mergeMatches l r lk rk lr = []
  · simp [hms]
  · have hne : (mergeMatches l r lk rk lr).isEmpty = false := by
      simpa [List.isEmpty_iff] using hms
    have hlen : 1 ≤ (mergeMatches l r lk rk lr).length :=
      Nat.pos_of_ne_zero (by simpa [List.length_eq_zero] using hms)
    simp [hne, Nat.max_eq_right hlen]

theorem mergeCore_mem_left (l r : DataFrame) (lk rk : String) (dk : Bool)
    {lr : List Cell} (hlr : lr ∈ l.rows) :
    ∃ out ∈ (mergeCore l r lk rk dk).rows, out.take lr.length = lr := by
  rw [mergeCore_rows]
  by_cases hms : mergeMatches l r lk rk lr = []
  · refine ⟨lr ++ List.replicate (mergeRCols r rk dk).length Cell.na, ?_, ?_⟩
    · exact List.mem_flatMap.2 ⟨lr, hlr, by simp [hms]⟩
    · exact List.take_left lr _
  · obtain ⟨rr, hrr⟩ := List.exists_mem_of_ne_nil _ hms
    refine ⟨lr ++ mergeRKeep r rk dk rr, ?_, ?_⟩
    · refine List.mem_flatMap.2 ⟨lr, hlr, ?_⟩
      have hne : (mergeMatches l r lk rk lr).isEmpty = false := by
        simpa [List.isEmpty_iff] using hms
      simp only [hne, Bool.false_eq_true, if_false]
      exact List.mem_map_of_mem _ hrr
    · exact List.take_left lr _

theorem mergeCore_unmatched (l r : DataFrame) (lk rk : String) (dk : Bool)
    {lr : List Cell} (hlr : lr ∈ l.rows) (hms : mergeMatches l r lk rk lr = []) :
    ∃ pad, (∀ c ∈ pad, c = Cell.na) ∧ lr ++ pad ∈ (mergeCore l r lk rk dk).rows := by
  rw [mergeCore_rows]
  refine ⟨List.replicate (mergeRCols r rk dk).length Cell.na,
    fun c hc => List.eq_of_mem_replicate hc, ?_⟩
  exact List.mem_flatMap.2 ⟨lr, hlr, by simp [hms]⟩

theorem filter_map_nodup_length_le_one {α β : Type} [DecidableEq β] (f : α → β)
    (l : List α) (h : (l.map f).Nodup) (v : β) :
    (l.filter (fun x => decide (f x = v))).length ≤ 1 := by
  induction l with
  | nil => simp
  | cons a t ih =>
    simp only [List.map_cons, List.nodup_cons] at h
    by_cases hav : f a = v
    · have ht : t.filter (fun x => decide (f x = v)) = [] := by
        rw [List.filter_eq_nil_iff]
        intro x hx
        simp only [decide_eq_true_eq]
        intro hfx
        exact h.1 (by rw [hav, ← hfx]; exact List.mem_map_of_mem f hx)
      simp [List.filter_cons, hav, ht]
    · simp only [List.filter_cons, decide_eq_true_eq, hav, if_false]
      exact ih h.2

theorem sum_map_max_one_of_le_one {α : Type} (l : List α) (g : α → Nat)
    (h : ∀ a ∈ l, g a ≤ 1) : (l.map (fun a => max 1 (g a))).sum = l.length := by
  induction l with
  | nil => rfl
  | cons a t ih =>
    have h1 : max 1 (g a) = 1 := by
      have := h a (by simp)
      omega
    simp only [List.map_cons, List.sum_cons, h1, List.length_cons]
    rw [ih (fun x hx => h x (by simp [hx]))]
    omega

theorem mergeCore_length_of_nodup (l r : DataFrame) (lk rk : String) (dk : Bool)
    (h : (r.rows.map (cellAt r.cols rk)).Nodup) :
    (mergeCore l r lk rk dk).rows.length = l.rows.length := by
  rw [mergeCore_rows_length]
  apply sum_map_max_one_of_le_one
  intro lr _
  exact filter_map_nodup_length_le_one (cellAt r.cols rk) r.rows h (cellAt l.cols lk lr)

/-! ### Sorting lemmas -/

theorem mem_insertByLe {α : Type} (le : α → α → Bool) (a x : α) (l : List α) :
    x ∈ insertByLe le a l ↔ x = a ∨ x ∈ l := by
  induction l with
  | nil => simp [insertByLe]
  | cons b bs ih =>
    by_cases hab : le a b = true
    · simp [insertByLe, hab]
    · simp only [insertByLe, hab, Bool.false_eq_true, if_false, List.mem_cons, ih]
      tauto

theorem perm_insertByLe {α : Type} (le : α → α → Bool) (a : α) (l : List α) :
    List.Perm (insertByLe le a l) (a :: l) := by
  induction l with
  | nil => simp [insertByLe]
  | cons b bs ih =>
    by_cases hab : le a b = true
    · simp [insertByLe, hab]
    · simp only [insertByLe, hab, Bool.false_eq_true, if_false]
      exact (ih.cons b).trans (List.Perm.swap a b bs)

theorem perm_sortByLe {α : Type} (le : α → α → Bool) (l : List α) :
    List.Perm (sortByLe le l) l := by
  induction l with
  | nil => rfl
  | cons a as ih => exact (perm_insertByLe le a (sortByLe le as)).trans (ih.cons a)

theorem mem_sortByLe {α : Type} (le : α → α → Bool) (x : α) (l : List α) :
    x ∈ sortByLe le l ↔ x ∈ l :=
  (perm_sortByLe le l).mem_iff

theorem length_sortByLe {α : Type} (le : α → α → Bool) (l : List α) :
    (sortByLe le l).length = l.length :=
  (perm_sortByLe le l).length_eq

theorem pairwise_insertByLe {α : Type} (le : α → α → Bool) (R : α → α → Prop)
    (htot : ∀ a b, le a b = true ∨ le b a = true)
    (htrans : ∀ a b c, le a b = true → le b c = true → le a c = true)
    (a : α) (l : List α)
    (hl : l.Pairwise (fun x y => le x y = true ∧ (le y x = true → R x y)))
    (ha : ∀ c ∈ l, R a c) :
    (insertByLe le a l).Pairwise (fun x y => le x y = true ∧ (le y x = true → R x y)) := by
  induction l with
  | nil => simp [insertByLe]
  | cons b bs ih =>
    rw [List.pairwise_cons] at hl
    obtain ⟨hb, hbs⟩ := hl
    by_cases hab : le a b = true
    · simp only [insertByLe, hab, if_true]
      refine List.pairwise_cons.2 ⟨?_, List.pairwise_cons.2 ⟨hb, hbs⟩⟩
      intro c hc
      rcases List.mem_cons.1 hc with rfl | hc2
      · exact ⟨hab, fun _ => ha c (by simp)⟩
      · exact ⟨htrans a b c hab (hb c hc2).1, fun _ => ha c (by simp [hc2])⟩
    · simp only [insertByLe, hab, Bool.false_eq_true, if_false]
      have hba : le b a = true := (htot a b).resolve_left hab
      refine List.pairwise_cons.2 ⟨?_, ih hbs (fun c hc => ha c (by simp [hc]))⟩
      intro x hx
      rcases (mem_insertByLe le a x bs).1 hx with rfl | hx2
      · exact ⟨hba, fun hab2 => absurd hab2 hab⟩
      · exact hb x hx2

/-- Stability of the insertion sort: sorting a `Pairwise R` input by a total
preorder `le` yields a list that is sorted and whose `le`-ties still satisfy
`R` in order. -/
theorem pairwise_sortByLe_stable {α : Type} (le : α → α → Bool) (R : α → α → Prop)
    (htot : ∀ a b, le a b = true ∨ le b a = true)
    (htrans : ∀ a b c, le a b = true → le b c = true → le a c = true)
    (l : List α) (hR : l.Pairwise R) :
    (sortByLe le l).Pairwise (fun x y => le x y = true ∧ (le y x = true → R x y)) := by
  induction l with
  | nil => simp [sortByLe]
  | cons a as ih =>
    rw [List.pairwise_cons] at hR
    exact pairwise_insertByLe le R htot htrans a (sortByLe le as) (ih hR.2)
      (fun c hc => hR.1 c ((mem_sortByLe le c as).1 hc))

theorem pairwise_le_sortByLe {α : Type} (le : α → α → Bool)
    (htot : ∀ a b, le a b = true ∨ le b a = true)
    (htrans : ∀ a b c, le a b = true → le b c = true → le a c = true)
    (l : List α) : (sortByLe le l).Pairwise (fun x y => le x y = true) := by
  have htru : l.Pairwise (fun _ _ => True) := by
    induction l with
    | nil => simp
    | cons a as ih => exact List.pairwise_cons.2 ⟨fun _ _ => trivial, ih⟩
  exact (pairwise_sortByLe_stable le (fun _ _ => True) htot htrans l htru).imp
    (fun h => h.1)

/-! ### Order properties of the comparison functions -/

theorem strLeChars_total : ∀ s t : List Char,
    strLeChars s t = true ∨ strLeChars t s = true := by
  intro s
  induction s with
  | nil => intro t; left; cases t <;> rfl
  | cons a as ih =>
    intro t
    cases t with
    | nil => right; rfl
    | cons b bs =>
      by_cases hab : a = b
      · subst hab
        simpa [strLeChars] using ih bs
      · rcases lt_or_gt_of_ne hab with h | h
        · left; simp [strLeChars, hab, h]
        · right; simp [strLeChars, Ne.symm hab, h]

theorem strLeChars_trans : ∀ s t u : List Char,
    strLeChars s t = true → strLeChars t u = true → strLeChars s u = true := by
  intro s
  induction s with
  | nil => intro t u _ _; cases u <;> rfl
  | cons a as ih =>
    intro t u hst htu
    cases t with
    | nil => simp [strLeChars] at hst
    | cons b bs =>
      cases u with
      | nil => simp [strLeChars] at htu
      | cons c cs =>
        by_cases hab : a = b <;> by_cases hbc : b = c
        · subst hab; subst hbc
          simp only [strLeChars, if_pos rfl] at hst htu ⊢
          exact ih bs cs hst htu
        · subst hab
          simp only [strLeChars, if_pos rfl] at hst
          simpa [strLeChars, hbc] using htu
        · subst hbc
          simpa [strLeChars, hab] using hst
        · simp only [strLeChars, hab, hbc, if_false, decide_eq_true_eq] at hst htu
          have hac : a < c := lt_trans hst htu
          have : a ≠ c := ne_of_lt hac
          simp [strLeChars, this, hac]

theorem cellLe_total : ∀ a b : Cell, cellLe a b = true ∨ cellLe b a = true := by
  intro a b
  cases a <;> cases b <;> simp [cellLe, cellRank] <;>
    first
      | exact strLeChars_total _ _
      | exact le_total _ _

theorem cellLe_trans : ∀ a b c : Cell,
    cellLe a b = true → cellLe b c = true → cellLe a c = true := by
  intro a b c hab hbc
  cases a <;> cases b <;> cases c <;>
    revert hab hbc <;>
    simp only [cellLe, cellRank, decide_eq_true_eq] <;>
    intro hab hbc <;>
    first
      | exact strLeChars_trans _ _ _ hab hbc
      | exact le_trans hab hbc
      | omega

theorem sumDescLe_total : ∀ a b : Cell × ℚ,
    sumDescLe a b = true ∨ sumDescLe b a = true := by
  intro a b
  simp only [sumDescLe, decide_eq_true_eq]
  exact le_total b.2 a.2

theorem sumDescLe_trans : ∀ a b c : Cell × ℚ,
    sumDescLe a b = true → sumDescLe b c = true → sumDescLe a c = true := by
  intro a b c hab hbc
  simp only [sumDescLe, decide_eq_true_eq] at hab hbc ⊢
  exact le_trans hbc hab

theorem strLe_total : ∀ a b : String, strLe a b = true ∨ strLe b a = true := by
  intro a b
  exact strLeChars_total a.data b.data

theorem strLe_trans : ∀ a b c : String,
    strLe a b = true → strLe b c = true → strLe a c = true := by
  intro a b c
  exact strLeChars_trans a.data b.data c.data

/-! ### Deduplication lemmas -/

theorem dedupCells_aux_mem (l : List Cell) :
    ∀ (acc : List Cell) (x : Cell),
      (x ∈ l.foldl (fun acc c => if c ∈ acc then acc else acc ++ [c]) acc
        ↔ x ∈ acc ∨ x ∈ l) := by
  induction l with
  | nil => intro acc x; simp
  | cons a t ih =>
    intro acc x
    simp only [List.foldl_cons]
    rw [ih]
    by_cases ha : a ∈ acc
    · simp only [ha, if_true, List.mem_cons]
      constructor
      · rintro (h | h)
        · exact Or.inl h
        · exact Or.inr (Or.inr h)
      · rintro (h | rfl | h)
        · exact Or.inl h
        · exact Or.inl ha
        · exact Or.inr h
    · simp only [ha, if_false, List.mem_append, List.mem_singleton, List.mem_cons]
      tauto

theorem mem_dedupCells (l : List Cell) (x : Cell) : x ∈ dedupCells l ↔ x ∈ l := by
  unfold dedupCells
  rw [dedupCells_aux_mem]
  simp

theorem dedupCells_aux_nodup (l : List Cell) :
    ∀ acc : List Cell, acc.Nodup →
      (l.foldl (fun acc c => if c ∈ acc then acc else acc ++ [c]) acc).Nodup := by
  induction l with
  | nil => intro acc h; simpa using h
  | cons a t ih =>
    intro acc h
    simp only [List.foldl_cons]
    by_cases ha : a ∈ acc
    · rw [if_pos ha]
      exact ih acc h
    · rw [if_neg ha]
      exact ih (acc ++ [a]) (by simp [List.nodup_append, h, ha])

theorem nodup_dedupCells (l : List Cell) : (dedupCells l).Nodup :=
  dedupCells_aux_nodup l [] (by simp)

/-! ### `groupKeys` / `groupbySum` lemmas -/

theorem mem_groupKeys (df : DataFrame) (col : String) (k : Cell) :
    k ∈ groupKeys df col ↔ (k ∈ colCells df col ∧ ¬ k = Cell.na) := by
  unfold groupKeys
  rw [mem_sortByLe, mem_dedupCells, List.mem_filter]
  simp

theorem nodup_groupKeys (df : DataFrame) (col : String) : (groupKeys df col).Nodup :=
  ((perm_sortByLe cellLe _).nodup_iff).2 (nodup_dedupCells _)

theorem pairwise_cellLe_groupKeys (df : DataFrame) (col : String) :
    (groupKeys df col).Pairwise (fun a b => cellLe a b = true) :=
  pairwise_le_sortByLe cellLe cellLe_total cellLe_trans _

theorem pairwise_strict_groupKeys (df : DataFrame) (col : String) :
    (groupKeys df col).Pairwise (fun a b => cellLe a b = true ∧ a ≠ b) :=
  (pairwise_cellLe_groupKeys df col).and (nodup_groupKeys df col)

theorem mem_groupbySum (df : DataFrame) (kc vc : String) (p : Cell × ℚ) :
    p ∈ groupbySum df kc vc ↔ ∃ k ∈ groupKeys df kc, p = (k, groupSum df kc vc k) := by
  unfold groupbySum
  rw [List.mem_map]
  constructor
  · rintro ⟨k, hk, rfl⟩; exact ⟨k, hk, rfl⟩
  · rintro ⟨k, hk, rfl⟩; exact ⟨k, hk, rfl⟩

theorem pairwise_strict_groupbySum (df : DataFrame) (kc vc : String) :
    (groupbySum df kc vc).Pairwise (fun g1 g2 => cellLe g1.1 g2.1 = true ∧ g1.1 ≠ g2.1) := by
  unfold groupbySum
  rw [List.pairwise_map]
  exact (pairwise_strict_groupKeys df kc).imp (fun h => h)

/-! ### The claims -/

/-- **C1** — For every row of the log table after normalization: when both
"Full Start" and "Full End" parse, `duration_hours` is the end-minus-start
difference in hours rounded to 2 decimals, `month` is the year-month bucket
of "Full Start" and `weekday` its English day name; when either fails to
parse, `duration_hours` is the undefined marker rather than an error, and
every row of the table is still produced (normalization never aborts). -/
theorem claim_C1 (df : DataFrame) (hwf : df.WF)
    (_hfs : "Full Start" ∈ (stripDf df).cols) (_hfe : "Full End" ∈ (stripDf df).cols)
    (i : Nat) (hi : i < df.rows.length) :
    (normalize_log_df df).rows.length = df.rows.length
    ∧ (∀ y1 m1 d1 h1 n1 s1 y2 m2 d2 h2 n2 s2 : Nat,
        toDatetimeCell (cellAt (stripDf df).cols "Full Start" ((stripDf df).rows.getD i []))
          = Cell.dt y1 m1 d1 h1 n1 s1 →
        toDatetimeCell (cellAt (stripDf df).cols "Full End" ((stripDf df).rows.getD i []))
          = Cell.dt y2 m2 d2 h2 n2 s2 →
        cellAt (normalize_log_df df).cols "duration_hours"
            ((normalize_log_df df).rows.getD i [])
          = Cell.num (round2 (mkRat ((rawSecs y2 m2 d2 h2 n2 s2 : ℤ)
              - (rawSecs y1 m1 d1 h1 n1 s1 : ℤ)) 3600))
        ∧ cellAt (normalize_log_df df).cols "month" ((normalize_log_df df).rows.getD i [])
          = Cell.period y1 m1
        ∧ cellAt (normalize_log_df df).cols "weekday" ((normalize_log_df df).rows.getD i [])
          = Cell.str (dayNameOf y1 m1 d1))
    ∧ ((toDatetimeCell (cellAt (stripDf df).cols "Full Start" ((stripDf df).rows.getD i []))
          = Cell.na
        ∨ toDatetimeCell (cellAt (stripDf df).cols "Full End" ((stripDf df).rows.getD i []))
          = Cell.na) →
        cellAt (normalize_log_df df).cols "duration_hours"
          ((normalize_log_df df).rows.getD i []) = Cell.na) := by
  obtain ⟨hlen, hdur, hmon, hwk⟩ := normalize_log_df_colCells df hwf
  have hi2 : i < (normalize_log_df df).rows.length := by rw [hlen]; exact hi
  have hiS : i < ((colCells (stripDf df) "Full Start").map toDatetimeCell).length := by
    simp only [List.length_map, colCells_length, stripDf]
    exact hi
  have hiE : i < ((colCells (stripDf df) "Full End").map toDatetimeCell).length := by
    simp only [List.length_map, colCells_length, stripDf]
    exact hi
  have hiR : i < (stripDf df).rows.length := hi
  have hSi : ((colCells (stripDf df) "Full Start").map toDatetimeCell).getD i Cell.na
      = toDatetimeCell (cellAt (stripDf df).cols "Full Start" ((stripDf df).rows.getD i [])) := by
    rw [getD_map toDatetimeCell _ i Cell.na Cell.na (by simpa using hiS)]
    rw [cellAt_getD_colCells (stripDf df) "Full Start" i hiR]
  have hEi : ((colCells (stripDf df) "Full End").map toDatetimeCell).getD i Cell.na
      = toDatetimeCell (cellAt (stripDf df).cols "Full End" ((stripDf df).rows.getD i [])) := by
    rw [getD_map toDatetimeCell _ i Cell.na Cell.na (by simpa using hiE)]
    rw [cellAt_getD_colCells (stripDf df) "Full End" i hiR]
  have hDur : cellAt (normalize_log_df df).cols "duration_hours"
        ((normalize_log_df df).rows.getD i [])
      = durCell
          (toDatetimeCell (cellAt (stripDf df).cols "Full End" ((stripDf df).rows.getD i [])))
          (toDatetimeCell (cellAt (stripDf df).cols "Full Start" ((stripDf df).rows.getD i []))) := by
    rw [← cellAt_getD_colCells (normalize_log_df df) "duration_hours" i hi2, hdur,
      getD_zipWith durCell _ _ i Cell.na Cell.na Cell.na hiE hiS, hSi, hEi]
  have hMon : cellAt (normalize_log_df df).cols "month" ((normalize_log_df df).rows.getD i [])
      = monthCell (toDatetimeCell
          (cellAt (stripDf df).cols "Full Start" ((stripDf df).rows.getD i []))) := by
    rw [← cellAt_getD_colCells (normalize_log_df df) "month" i hi2, hmon,
      getD_map monthCell _ i Cell.na Cell.na hiS, hSi]
  have hWk : cellAt (normalize_log_df df).cols "weekday" ((normalize_log_df df).rows.getD i [])
      = weekdayCell (toDatetimeCell
          (cellAt (stripDf df).cols "Full Start" ((stripDf df).rows.getD i []))) := by
    rw [← cellAt_getD_colCells (normalize_log_df df) "weekday" i hi2, hwk,
      getD_map weekdayCell _ i Cell.na Cell.na hiS, hSi]
  refine ⟨hlen, ?_, ?_⟩
  · intro y1 m1 d1 h1 n1 s1 y2 m2 d2 h2 n2 s2 heqS heqE
    rw [hDur, hMon, hWk, heqS, heqE]
    exact ⟨rfl, rfl, rfl⟩
  · intro h
    rw [hDur]
    exact durCell_of_na h

/-- Witness for C1 at Scenario A: the session from 20:00 to 22:30 on
2024-01-01 gets duration 2.5 hours, month 2024-01 and weekday Monday. -/
theorem claim_C1_witness :
    cellAt (normalize_log_df scenarioA_log).cols "duration_hours"
        ((normalize_log_df scenarioA_log).rows.getD 0 []) = Cell.num (mkRat 5 2)
    ∧ cellAt (normalize_log_df scenarioA_log).cols "month"
        ((normalize_log_df scenarioA_log).rows.getD 0 []) = Cell.period 2024 1
    ∧ cellAt (normalize_log_df scenarioA_log).cols "weekday"
        ((normalize_log_df scenarioA_log).rows.getD 0 []) = Cell.str "Monday" := by
  have h := claim_C1 scenarioA_log (by decide) (by decide) (by decide) 0 (by decide)
  obtain ⟨hd, hm, hw⟩ :=
    h.2.1 2024 1 1 20 0 0 2024 1 1 22 30 0 (by decide) (by decide)
  refine ⟨?_, hm, ?_⟩
  · rw [hd]; decide
  · rw [hw]; decide

/-- **C2** — The join key is selected once, from column availability: when
both tables have a `UID` column the join is on `UID` equality (Scenario C
shows this wins even when `GAME`/`Game` disagree in content); otherwise
log `GAME` is joined against register `Game`.  Both cases are the left-outer
`mergeCore` from the log table. -/
theorem claim_C2 (l r : DataFrame) :
    (("UID" ∈ l.cols ∧ "UID" ∈ r.cols) →
      merge_data l r = mergeCore l r "UID" "UID" true ∧ joinKeys l r = ("UID", "UID"))
    ∧ (¬ ("UID" ∈ l.cols ∧ "UID" ∈ r.cols) →
      merge_data l r = mergeCore l r "GAME" "Game" false ∧ joinKeys l r = ("GAME", "Game"))
    ∧ merge_data uidLog uidReg = uidMerged := by
  refine ⟨?_, ?_, by decide⟩
  · intro h
    constructor
    · unfold merge_data; rw [if_pos h]
    · unfold joinKeys; rw [if_pos h]
  · intro h
    constructor
    · unfold merge_data; rw [if_neg h]
    · unfold joinKeys; rw [if_neg h]

/-- Witness for C2: Scenario C's tables both expose `UID`, so the `UID` form
of the join is taken. -/
theorem claim_C2_witness :
    merge_data uidLog uidReg = mergeCore uidLog uidReg "UID" "UID" true :=
  ((claim_C2 uidLog uidReg).1 (by decide)).1

/-- **C3** — The merge is left-outer with relational fan-out: the output has
one row per log row and matching register row (at least one per log row, the
unmatched ones padded with undefined catalog cells, with no deduplication),
so when the register's join-key values are unique the output row count equals
the log row count exactly. -/
theorem claim_C3 (l r : DataFrame) :
    ((merge_data l r).rows.length
        = (l.rows.map (fun lr =>
            max 1 (mergeMatches l r (joinKeys l r).1 (joinKeys l r).2 lr).length)).sum)
    ∧ (∀ lr ∈ l.rows, ∃ out ∈ (merge_data l r).rows, out.take lr.length = lr)
    ∧ (∀ lr ∈ l.rows, mergeMatches l r (joinKeys l r).1 (joinKeys l r).2 lr = [] →
        ∃ pad, (∀ c ∈ pad, c = Cell.na) ∧ lr ++ pad ∈ (merge_data l r).rows)
    ∧ ((r.rows.map (cellAt r.cols (joinKeys l r).2)).Nodup →
        (merge_data l r).rows.length = l.rows.length) := by
  by_cases h : "UID" ∈ l.cols ∧ "UID" ∈ r.cols
  · have hm : merge_data l r = mergeCore l r "UID" "UID" true := by
      unfold merge_data; rw [if_pos h]
    have hk : joinKeys l r = ("UID", "UID") := by
      unfold joinKeys; rw [if_pos h]
    rw [hm, hk]
    exact ⟨mergeCore_rows_length l r "UID" "UID" true,
      fun lr hlr => mergeCore_mem_left l r "UID" "UID" true hlr,
      fun lr hlr hms => mergeCore_unmatched l r "UID" "UID" true hlr hms,
      fun hnd => mergeCore_length_of_nodup l r "UID" "UID" true hnd⟩
  · have hm : merge_data l r = mergeCore l r "GAME" "Game" false := by
      unfold merge_data; rw [if_neg h]
    have hk : joinKeys l r = ("GAME", "Game") := by
      unfold joinKeys; rw [if_neg h]
    rw [hm, hk]
    exact ⟨mergeCore_rows_length l r "GAME" "Game" false,
      fun lr hlr => mergeCore_mem_left l r "GAME" "Game" false hlr,
      fun lr hlr hms => mergeCore_unmatched l r "GAME" "Game" false hlr hms,
      fun hnd => mergeCore_length_of_nodup l r "GAME" "Game" false hnd⟩

/-- Witness for C3: Scenario C's register has unique `UID` values, so the
merged table has exactly one row per log row. -/
theorem claim_C3_witness :
    (merge_data uidLog uidReg).rows.length = uidLog.rows.length :=
  (claim_C3 uidLog uidReg).2.2.2 (by decide)

/-- **C4** — The badge evaluation returns exactly the milestones whose
threshold is at most the total hours: membership is characterized by the
fixed threshold table, the result is always an in-order selection of that
ascending table, and a 260-hour total yields exactly the first two badges
(Scenario B). -/
theorem claim_C4 (df : DataFrame) (b : String) :
    (b ∈ playtime_badges df ↔ ∃ p ∈ milestones, p.2 = b ∧ p.1 ≤ total_hours df)
    ∧ (playtime_badges df).Sublist (milestones.map Prod.snd)
    ∧ (total_hours df = 260 →
        playtime_badges df = ["🎯 Casual Grinder", "🔥 Hardcore Enthusiast"]) := by
  refine ⟨?_, ?_, ?_⟩
  · unfold playtime_badges
    rw [List.mem_map]
    constructor
    · rintro ⟨p, hp, rfl⟩
      rw [List.mem_filter] at hp
      exact ⟨p, hp.1, rfl, by simpa using hp.2⟩
    · rintro ⟨p, hp, hb, hle⟩
      exact ⟨p, List.mem_filter.2 ⟨hp, by simpa using hle⟩, hb⟩
  · exact (List.filter_sublist _).map Prod.snd
  · intro h
    unfold playtime_badges
    rw [h]
    decide

/-- Witness for C4 at Scenario B: a merged table totalling 260 hours unlocks
exactly Casual Grinder and Hardcore Enthusiast. -/
theorem claim_C4_witness :
    playtime_badges hours260Df = ["🎯 Casual Grinder", "🔥 Hardcore Enthusiast"] :=
  (claim_C4 hours260Df "").2.2 (by decide)

/-- **C8** — Badge monotonicity: a table with at least as many total hours
unlocks a superset of the badges. -/
theorem claim_C8 (df1 df2 : DataFrame) (h : total_hours df1 ≤ total_hours df2) :
    ∀ b ∈ playtime_badges df1, b ∈ playtime_badges df2 := by
  intro b hb
  unfold playtime_badges at hb ⊢
  rw [List.mem_map] at hb ⊢
  obtain ⟨p, hp, rfl⟩ := hb
  rw [List.mem_filter] at hp
  refine ⟨p, List.mem_filter.2 ⟨hp.1, ?_⟩, rfl⟩
  have h1 : p.1 ≤ total_hours df1 := by simpa using hp.2
  simpa using le_trans h1 h

/-- Witness for C8: 100 total hours unlock Casual Grinder, which is then
also unlocked at 260 total hours. -/
theorem claim_C8_witness : "🎯 Casual Grinder" ∈ playtime_badges hours260Df :=
  claim_C8 hours100Df hours260Df (by decide) "🎯 Casual Grinder" (by decide)

/-- **C6** — On a zero-row table every aggregate is a well-defined
zero/empty value: 0 total hours, 0 sessions, average exactly 0 (the guarded
branch, no division), no badges, and empty game and month rollups. -/
theorem claim_C6 (cols : List String) :
    total_hours ⟨cols, []⟩ = 0
    ∧ total_sessions ⟨cols, []⟩ = 0
    ∧ avg_session ⟨cols, []⟩ = some 0
    ∧ playtime_badges ⟨cols, []⟩ = []
    ∧ top_games ⟨cols, []⟩ = []
    ∧ month_rollup ⟨cols, []⟩ = [] := by
  refine ⟨rfl, rfl, rfl, ?_, rfl, rfl⟩
  have h0 : total_hours ⟨cols, []⟩ = 0 := rfl
  unfold playtime_badges
  rw [h0]
  decide

/-- **C7** — The tag filter keeps exactly the register rows with some
genre-tag cell among the selected tags; an empty selection, or a register
without genre-tag columns, returns the table unchanged.  Scenario D: the
RPG/Adventure row is kept under selection ["RPG"] and dropped under
["Platformer"]. -/
theorem claim_C7 (df : DataFrame) (selected : List String) :
    ((df.cols.filter (fun c => startsWithStr (lowerStr c) "genretag")).isEmpty = true →
        genre_filter df selected = df)
    ∧ (selected = [] → genre_filter df selected = df)
    ∧ ((df.cols.filter (fun c => startsWithStr (lowerStr c) "genretag")).isEmpty = false →
        selected ≠ [] →
        (genre_filter df selected).cols = df.cols
        ∧ (genre_filter df selected).rows = df.rows.filter (fun r =>
            (df.cols.filter (fun c => startsWithStr (lowerStr c) "genretag")).any
              (fun c => (selected.map Cell.str).contains (cellAt df.cols c r))))
    ∧ genre_filter scenarioD_register ["RPG"]
        = ⟨["Game", "genretag1", "genretag2"],
           [[Cell.str "FF7", Cell.str "RPG", Cell.str "Adventure"]]⟩
    ∧ genre_filter scenarioD_register ["Platformer"]
        = ⟨["Game", "genretag1", "genretag2"], []⟩ := by
  refine ⟨?_, ?_, ?_, by decide, by decide⟩
  · intro h
    simp [genre_filter, h]
  · intro h
    subst h
    by_cases hg : (df.cols.filter (fun c => startsWithStr (lowerStr c) "genretag")).isEmpty
    · simp [genre_filter, hg]
    · simp [genre_filter, hg]
  · intro h1 h2
    have h3 : selected.isEmpty = false := by
      simpa [List.isEmpty_iff] using h2
    simp [genre_filter, h1, h3]

/-- Witness for C7: the empty selection leaves Scenario D's register
unchanged. -/
theorem claim_C7_witness : genre_filter scenarioD_register [] = scenarioD_register :=
  (claim_C7 scenarioD_register []).2.1 rfl

/-- **C10** — Rows whose game-title cell is undefined are silently excluded
from the top-games rollup (group keys are never the undefined marker), while
such sessions still count toward the total hours and the session count, as
the concrete table shows: a 2-hour untitled session is missing from the
rollup yet included in the 5-hour total and the 2-session count. -/
theorem claim_C10 (df : DataFrame) :
    (∀ p ∈ top_games df, ¬ p.1 = Cell.na)
    ∧ top_games naGameLog = [(Cell.str "Mario", 3)]
    ∧ total_hours naGameLog = 5
    ∧ total_sessions naGameLog = 2 := by
  refine ⟨?_, by decide, by decide, rfl⟩
  intro p hp
  unfold top_games at hp
  have hp2 : p ∈ sortByLe sumDescLe (groupbySum df "GAME" "duration_hours") :=
    List.mem_of_mem_take hp
  rw [mem_sortByLe, mem_groupbySum] at hp2
  obtain ⟨k, hk, rfl⟩ := hp2
  exact ((mem_groupKeys df "GAME" k).1 hk).2

/-- Witness for C10: the rollup entry for "Mario" indeed has a defined key. -/
theorem claim_C10_witness : ¬ ((Cell.str "Mario", (3 : ℚ)).1 = Cell.na) :=
  (claim_C10 naGameLog).1 (Cell.str "Mario", 3) (by decide)

/-- C9's counterexample: normalizing Scenario A's table leaves the caller's
table object changed (it now carries parsed timestamps and the derived
columns), so normalization is not a copy. -/
theorem claim_C9_counterexample :
    (normalize_log_df_call scenarioA_log).1 ≠ scenarioA_log := by decide

/-- **C9 (amended)** — `normalize_log_df` mutates its argument in place and
returns that same object: after the call the input table equals the returned
table, which carries the derived `duration_hours`, `month` and `weekday`
columns — they are present in the caller's object too, not only in a copied
output. -/
theorem claim_C9 (df : DataFrame) :
    (normalize_log_df_call df).1 = (normalize_log_df_call df).2
    ∧ "duration_hours" ∈ (normalize_log_df_call df).1.cols
    ∧ "month" ∈ (normalize_log_df_call df).1.cols
    ∧ "weekday" ∈ (normalize_log_df_call df).1.cols := by
  refine ⟨rfl, ?_, ?_, ?_⟩
  · show "duration_hours" ∈ (normalize_log_df df).cols
    exact mem_cols_setCol_of_mem _ _ _ _
      (mem_cols_setCol_of_mem _ _ _ _ (mem_cols_setCol_self _ _ _))
  · show "month" ∈ (normalize_log_df df).cols
    exact mem_cols_setCol_of_mem _ _ _ _ (mem_cols_setCol_self _ _ _)
  · show "weekday" ∈ (normalize_log_df df).cols
    exact mem_cols_setCol_self _ _ _

/-- C5's counterexample: in `tieLog` the first-seen game is "Zelda" (its
`GAME` column lists "Zelda" before "Axiom"), the two games tie at 1 summed
hour, yet the rollup lists "Axiom" first — ties follow the groupby's
alphabetical key order, not stable first-seen input order. -/
theorem claim_C5_counterexample :
    colCells tieLog "GAME" = [Cell.str "Zelda", Cell.str "Axiom"]
    ∧ top_games tieLog = [(Cell.str "Axiom", 1), (Cell.str "Zelda", 1)] := by
  constructor
  · decide
  · decide

/-- **C5 (amended)** — The top-games rollup groups rows by game title
(undefined titles excluded), sums `duration_hours` per group, sorts the
groups descending by summed hours and returns at most 15 of them (exactly
`min 15` the number of distinct titles); groups with equal sums are ordered
ascending by game title — the order `groupby` emits — not by first-seen
input order. -/
theorem claim_C5 (df : DataFrame) :
    (top_games df).length = min 15 (groupKeys df "GAME").length
    ∧ (top_games df).Pairwise (fun g1 g2 => g2.2 ≤ g1.2
        ∧ (g1.2 = g2.2 → (cellLe g1.1 g2.1 = true ∧ g1.1 ≠ g2.1)))
    ∧ (∀ p ∈ top_games df, p.1 ∈ groupKeys df "GAME"
        ∧ p.2 = groupSum df "GAME" "duration_hours" p.1) := by
  have hsorted := pairwise_sortByLe_stable sumDescLe
      (fun g1 g2 => cellLe g1.1 g2.1 = true ∧ g1.1 ≠ g2.1) sumDescLe_total sumDescLe_trans
      (groupbySum df "GAME" "duration_hours") (pairwise_strict_groupbySum df "GAME" "duration_hours")
  refine ⟨?_, ?_, ?_⟩
  · unfold top_games
    rw [List.length_take, length_sortByLe]
    unfold groupbySum
    rw [List.length_map]
  · have htake := List.Pairwise.sublist (List.take_sublist 15 _) hsorted
    refine (htake.imp ?_ :
      (top_games df).Pairwise (fun g1 g2 => g2.2 ≤ g1.2
        ∧ (g1.2 = g2.2 → (cellLe g1.1 g2.1 = true ∧ g1.1 ≠ g2.1))))
    intro a b hab
    refine ⟨by simpa [sumDescLe] using hab.1, fun heq => hab.2 ?_⟩
    simp only [sumDescLe, decide_eq_true_eq]
    exact le_of_eq heq
  · intro p hp
    unfold top_games at hp
    have hp2 : p ∈ sortByLe sumDescLe (groupbySum df "GAME" "duration_hours") :=
      List.mem_of_mem_take hp
    rw [mem_sortByLe, mem_groupbySum] at hp2
    obtain ⟨k, hk, rfl⟩ := hp2
    exact ⟨hk, rfl⟩

/-- Witness for C5: the "Axiom" entry of the tie rollup is one of the group
keys and carries its group's summed hours. -/
theorem claim_C5_witness :
    (Cell.str "Axiom", (1 : ℚ)).1 ∈ groupKeys tieLog "GAME"
    ∧ (Cell.str "Axiom", (1 : ℚ)).2
        = groupSum tieLog "GAME" "duration_hours" (Cell.str "Axiom", (1 : ℚ)).1 :=
  (claim_C5 tieLog).2.2 (Cell.str "Axiom", 1) (by decide)
